import Mathlib

/-!
Verification development for the linkage.ink 2D linkage simulator.

The JavaScript sources are shallowly embedded: JS numbers are modelled as
exact rationals (ℚ); the transcendental library functions `Math.cos`,
`Math.sin`, `Math.atan2` and `Math.sqrt` (whose values are irrational) are
supplied as an oracle parameter, so every definition stays computable and
theorems quantify over the oracle.  Concrete witnesses instantiate the
oracle with functions that agree with the real mathematical functions at
the finitely many points actually evaluated.

JS exceptions (TypeError on property access of `undefined`) are modelled
with `Option` or an explicit `threw` flag, with the partially mutated
state retained where the source mutates before throwing.
-/

namespace Linkage

/-- 2D point/vector, `src/utils/Vector.js`: a pair of JS numbers. -/
structure Vec where
  x : ℚ
  y : ℚ
deriving DecidableEq

/-- Oracle for the JS `Math` functions used by the embedded code.
`atan2 y x` takes the arguments in the JS order. -/
structure MathOracle where
  cos : ℚ → ℚ
  sin : ℚ → ℚ
  atan2 : ℚ → ℚ → ℚ
  sqrt : ℚ → ℚ

/-- `Vector.dist(v1, v2) = Math.sqrt((v1.x-v2.x)**2 + (v1.y-v2.y)**2)`. -/
def Vec.dist (o : MathOracle) (v1 v2 : Vec) : ℚ :=
  o.sqrt ((v1.x - v2.x) ^ 2 + (v1.y - v2.y) ^ 2)

/-- Rod component, `src/src/linkage/Rod.js`. -/
structure Rod where
  id : ℕ
  length : ℚ
  angle : ℚ
  isTracing : Bool
  isFullRodTracing : Bool
deriving DecidableEq

/-- The `Rod` constructor: `new Rod(id, length)` sets `angle = 0`,
`isTracing = false`, `isFullRodTracing = false`. -/
def Rod.new (id : ℕ) (length : ℚ) : Rod :=
  { id := id, length := length, angle := 0, isTracing := false, isFullRodTracing := false }

/-- Guide point, `src/src/linkage/GuidePoint.js` (the constant visual
`radius` field is omitted; it is never read by the embedded operations). -/
structure GuidePoint where
  id : ℕ
  pos : Vec
deriving DecidableEq

/-- Fields of the trace system that `LinkageMechanism.updateJoints` reads
for the stretching rule: `rodsWidth`, `traceWidth` and
`jointSizeMultiplier`.  The initializer of `jointSizeMultiplier` is not in
the provided sources (only its readers are); it is kept as an arbitrary
configuration constant here, per the spec a clearance factor derived from
the visual joint size. -/
structure TraceCfg where
  rodsWidth : ℚ
  traceWidth : ℚ
  jointSizeMultiplier : ℚ
deriving DecidableEq

/-- State of `LinkageMechanism` (`src/unnamed/part_015`, third variant,
lines 332-545).  `hasTraceSystem` models `this.traceSystem !== null`. -/
structure Mechanism where
  crankSpeed : ℚ
  crankAngle : ℚ
  isPlaying : Bool
  isStretchingMode : Bool
  hasTraceSystem : Bool
  anchor : Vec
  rods : List Rod
  guidePoints : List GuidePoint
  joints : List Vec
deriving DecidableEq

/-- Stretching-mode growth rule for one follower rod
(`updateJoints`, part_015 lines 395-409): grow the length to
`distanceToGP + sleeveExtension + jointRadius` when that minimum exceeds
the current length, otherwise leave it unchanged. -/
def stretchLen (o : MathOracle) (cfg : TraceCfg) (parent gpPos : Vec) (len : ℚ) : ℚ :=
  let distanceToGP := Vec.dist o parent gpPos
  let gpSize := cfg.rodsWidth * 5
  let sleeveLength := gpSize
  let sleeveExtension := sleeveLength
  let jointRadius := cfg.traceWidth * cfg.jointSizeMultiplier / 2
  let minLength := distanceToGP + sleeveExtension + jointRadius
  if minLength > len then minLength else len

/-- The follower loop of `updateJoints` (part_015 lines 388-416),
processing `rods[1..]` against `guidePoints[0..]` from the given parent
joint.  Returns the updated follower rods and the appended joints.
Returns `none` when a rod has no guide point, where the JS code throws a
TypeError reading `undefined.pos`. -/
def followerPass (o : MathOracle) (cfg : TraceCfg) (stretchOn : Bool) :
    Vec → List Rod → List GuidePoint → Option (List Rod × List Vec)
  | _, [], _ => some ([], [])
  | _, _ :: _, [] => none
  | parent, r :: rs, g :: gs =>
    let angle := o.atan2 (g.pos.y - parent.y) (g.pos.x - parent.x)
    let len := if stretchOn then stretchLen o cfg parent g.pos r.length else r.length
    let r1 : Rod := { r with angle := angle, length := len }
    let next : Vec := ⟨parent.x + len * o.cos angle, parent.y + len * o.sin angle⟩
    match followerPass o cfg stretchOn next rs gs with
    | none => none
    | some (rs1, js) => some (r1 :: rs1, next :: js)

/-- `LinkageMechanism.updateJoints` (part_015 lines 375-417).  Returns
`none` when the JS code would throw: `rods` empty (`this.rods[0]` is
`undefined`) or a follower rod without a guide point. -/
def Mechanism.updateJoints (o : MathOracle) (cfg : TraceCfg) (m : Mechanism) :
    Option Mechanism :=
  match m.rods with
  | [] => none
  | r0 :: rest =>
    let r0' : Rod := { r0 with angle := m.crankAngle }
    let crankEnd : Vec :=
      ⟨m.anchor.x + r0'.length * o.cos r0'.angle,
       m.anchor.y + r0'.length * o.sin r0'.angle⟩
    match followerPass o cfg (m.isStretchingMode && m.hasTraceSystem) crankEnd rest m.guidePoints with
    | none => none
    | some (rest', js) =>
      some { m with rods := r0' :: rest', joints := crankEnd :: js }

/-- `LinkageMechanism.update` (part_015 lines 367-373): advance the crank
angle when playing, then recompute the joints. -/
def Mechanism.update (o : MathOracle) (cfg : TraceCfg) (m : Mechanism) :
    Option Mechanism :=
  Mechanism.updateJoints o cfg
    (if m.isPlaying then { m with crankAngle := m.crankAngle + m.crankSpeed } else m)

/-- Set `isTracing` of the last rod (the `this.rods[this.rods.length - 1].isTracing = b`
assignments guarded by `this.rods.length > 0`); identity on an empty list. -/
def setLastTracing (b : Bool) : List Rod → List Rod
  | [] => []
  | [r] => [{ r with isTracing := b }]
  | r :: r' :: rs => r :: setLastTracing b (r' :: rs)

/-- The golden-ratio constant `PHI = 1.618033988749895` of `addRod`,
modelled as the exact decimal rational of the source literal. -/
def PHI : ℚ := 1618033988749895 / 1000000000000000

/-- Outcomes of the three `Math.random()` draws inside `addRod`. -/
structure Rand where
  isLarger : Bool
  largerSegmentFirst : Bool
  ySignPos : Bool
deriving DecidableEq

/-- Result of a call to `addRod`: the mechanism state after the call and
whether the call threw a TypeError (in JS the mutations made before the
throw are retained, and the exception propagates to the caller). -/
structure AddRodResult where
  mech : Mechanism
  threw : Bool
deriving DecidableEq

/-- `LinkageMechanism.addRod` (part_015 lines 419-473).  Mirrors the JS
control flow: early return when `joints` is empty; otherwise turn off
tracing on the last rod, push the new golden-ratio rod, then read
`guidePoints[guidePoints.length - 1]` — which is `undefined` when there
are no guide points, so the JS code throws there, after the rod push. -/
def Mechanism.addRod (o : MathOracle) (rnd : Rand) (m : Mechanism) : AddRodResult :=
  let newId := m.rods.length
  if m.joints = [] then ⟨m, false⟩
  else
    let lastJointPos := (m.joints.getLast?).getD ⟨0, 0⟩
    let rods1 := setLastTracing false m.rods
    match rods1.getLast? with
    | none => ⟨{ m with rods := rods1 }, true⟩
    | some prev =>
      let newLength := if rnd.isLarger then prev.length * PHI else prev.length / PHI
      let newRod : Rod := { (Rod.new newId newLength) with isTracing := true }
      let rods2 := rods1 ++ [newRod]
      match m.guidePoints.getLast? with
      | none => ⟨{ m with rods := rods2 }, true⟩
      | some previousGP =>
        let gpX := previousGP.pos.x
        let shortSegment := newLength / (1 + PHI)
        let longSegment := newLength - shortSegment
        let distanceToGP := if rnd.largerSegmentFirst then longSegment else shortSegment
        let deltaX := gpX - lastJointPos.x
        let deltaYSquared := distanceToGP * distanceToGP - deltaX * deltaX
        if deltaYSquared < 0 then
          ⟨{ m with
              rods := rods2
              guidePoints := m.guidePoints ++ [⟨newId, ⟨gpX, lastJointPos.y⟩⟩] }, false⟩
        else
          let deltaY := o.sqrt deltaYSquared
          let gpY := lastJointPos.y + (if rnd.ySignPos then deltaY else -deltaY)
          ⟨{ m with
              rods := rods2
              guidePoints := m.guidePoints ++ [⟨newId, ⟨gpX, gpY⟩⟩] }, false⟩

/-- `LinkageMechanism.removeRod` (part_015 lines 475-485): no-op unless at
least two rods exist; otherwise pop the last rod and guide point and
re-enable tracing on the new last rod. -/
def Mechanism.removeRod (m : Mechanism) : Mechanism :=
  if m.rods.length > 1 then
    { m with
        rods := setLastTracing true m.rods.dropLast
        guidePoints := m.guidePoints.dropLast }
  else m

/-- Camera state, `src/src/linkage/Camera.js` (second variant, the one
with animation support; constructor sets `zoom = 1`, `minZoom = 0.1`,
`maxZoom = 5`).  Only the non-animated operations are embedded; the
transient animation slots are not read by any claim. -/
structure Camera where
  offset : Vec
  zoom : ℚ
  maxZoom : ℚ
  minZoom : ℚ
deriving DecidableEq

/-- `MathUtils.constrain(value, min, max) = Math.min(Math.max(value, min), max)`. -/
def constrain (value lo hi : ℚ) : ℚ := min (max value lo) hi

/-- `Camera.worldToScreen` (Camera.js lines 84-89). -/
def Camera.worldToScreen (c : Camera) (worldPos : Vec) : Vec :=
  ⟨worldPos.x * c.zoom + c.offset.x, worldPos.y * c.zoom + c.offset.y⟩

/-- `Camera.screenToWorld` (Camera.js lines 77-82). -/
def Camera.screenToWorld (c : Camera) (x y : ℚ) : Vec :=
  ⟨(x - c.offset.x) / c.zoom, (y - c.offset.y) / c.zoom⟩

/-- `Camera.zoomAt` (Camera.js lines 145-158): clamp the new zoom, then
re-solve the offset so the given world point keeps its screen position. -/
def Camera.zoomAt (c : Camera) (worldPos : Vec) (zoomFactor : ℚ) : Camera :=
  let oldZoom := c.zoom
  let newZoom := constrain (c.zoom * zoomFactor) c.minZoom c.maxZoom
  let screenX := worldPos.x * oldZoom + c.offset.x
  let screenY := worldPos.y * oldZoom + c.offset.y
  { c with
      offset := ⟨screenX - worldPos.x * newZoom, screenY - worldPos.y * newZoom⟩
      zoom := newZoom }

/-- One recorded point-trace sample, `{pos, age}` (TraceSystem.js line 66).
Ages are non-negative integers: created at 0 and only ever incremented. -/
structure TracePoint where
  pos : Vec
  age : ℕ
deriving DecidableEq

/-- One recorded full-rod trace frame, `{points, age}` (TraceSystem.js line 93). -/
structure FullRodFrame where
  points : List Vec
  age : ℕ
deriving DecidableEq

/-- Trace-path keys: JS uses the numeric rod id for point traces and the
string `fullrod_i` for full-rod traces; both carry the rod index. -/
abbrev TraceKey := ℕ

/-- State of `TraceSystem`, `src/src/linkage/TraceSystem.js`.  The two JS
objects keyed by rod id are modelled as association lists in insertion
order.  `fadeLifespan` is always assigned whole frame counts. -/
structure TraceSystem where
  tracePaths : List (TraceKey × List TracePoint)
  fullRodTracePaths : List (TraceKey × List FullRodFrame)
  traceColor : ℚ × ℚ × ℚ
  fullRodTraceColor : ℚ × ℚ × ℚ
  fadeLifespan : ℕ
  fullRodTraceSegments : ℕ
  traceWidth : ℚ
  rodsWidth : ℚ
deriving DecidableEq

/-- The defaults of the `TraceSystem` constructor (TraceSystem.js lines 8-17). -/
def TraceSystem.init : TraceSystem :=
  { tracePaths := [], fullRodTracePaths := []
    traceColor := (0, 100, 0), fullRodTraceColor := (0, 150, 0)
    fadeLifespan := 360
    fullRodTraceSegments := 8, traceWidth := 8, rodsWidth := 4 }

/-- View of the trace-system fields read by `updateJoints`, with the
`jointSizeMultiplier` constant supplied separately (its initializer is not
in the provided sources). -/
def TraceSystem.cfg (ts : TraceSystem) (mult : ℚ) : TraceCfg :=
  ⟨ts.rodsWidth, ts.traceWidth, mult⟩

/-- `TraceSystem.setTraceColor` (TraceSystem.js lines 19-30): store the
rgb triple and derive the full-rod color by brightening each channel by
1.5x, floored and capped at 255. -/
def TraceSystem.setTraceColor (ts : TraceSystem) (r g b : ℚ) : TraceSystem :=
  let up : ℚ → ℚ := fun ch => min 255 ((⌊ch * 3 / 2⌋ : ℤ) : ℚ)
  { ts with traceColor := (r, g, b), fullRodTraceColor := (up r, up g, up b) }

/-- `TraceSystem.setTraceWidth` (TraceSystem.js lines 40-42). -/
def TraceSystem.setTraceWidth (ts : TraceSystem) (w : ℚ) : TraceSystem :=
  { ts with traceWidth := w }

/-- `TraceSystem.setRodsWidth` (TraceSystem.js lines 48-50). -/
def TraceSystem.setRodsWidth (ts : TraceSystem) (w : ℚ) : TraceSystem :=
  { ts with rodsWidth := w }

/-- `TraceSystem.updateFadeLifespan` (TraceSystem.js lines 56-58). -/
def TraceSystem.updateFadeLifespan (ts : TraceSystem) (framesPerRound : ℕ) : TraceSystem :=
  { ts with fadeLifespan := framesPerRound }

/-- Helper for the backwards aging loop of `TraceSystem.update` on one
point path: the input list is the path reversed (tail first).  Each point
is aged; on the first aged point found to exceed the lifespan, the
remaining (older) points are discarded un-aged, exactly like
`path.splice(0, i + 1); break`. -/
def agePointsRev (F : ℕ) : List TracePoint → List TracePoint → List TracePoint
  | [], acc => acc
  | p :: rest, acc =>
    let p' : TracePoint := { p with age := p.age + 1 }
    if p'.age > F then acc else agePointsRev F rest (p' :: acc)

/-- Aging/eviction of one point-trace path (TraceSystem.js lines 98-109):
iterate from the newest end backwards, age each point, and on finding a
point with `age > fadeLifespan` drop it and everything older. -/
def updatePointPath (F : ℕ) (path : List TracePoint) : List TracePoint :=
  agePointsRev F path.reverse []

/-- Aging/eviction of one full-rod path (TraceSystem.js lines 112-124):
age every frame, then shift from the head while `age >= fadeLifespan`. -/
def updateFullRodPath (F : ℕ) (path : List FullRodFrame) : List FullRodFrame :=
  (path.map fun fr => { fr with age := fr.age + 1 }).dropWhile fun fr =>
    decide (fr.age ≥ F)

/-- `TraceSystem.update` (TraceSystem.js lines 96-125): apply the two
per-path aging/eviction passes to every recorded path. -/
def TraceSystem.update (ts : TraceSystem) : TraceSystem :=
  { ts with
      tracePaths := ts.tracePaths.map fun kp => (kp.1, updatePointPath ts.fadeLifespan kp.2)
      fullRodTracePaths := ts.fullRodTracePaths.map fun kp =>
        (kp.1, updateFullRodPath ts.fadeLifespan kp.2) }

/-- Append a value to the path stored under a key in an association list,
creating the entry when absent (the `if (!this.tracePaths[rodId])` idiom). -/
def appendAt {α : Type} (k : TraceKey) (v : α) :
    List (TraceKey × List α) → List (TraceKey × List α)
  | [] => [(k, [v])]
  | (k', vs) :: rest =>
    if k' = k then (k', vs ++ [v]) :: rest else (k', vs) :: appendAt k v rest

/-- `TraceSystem.addTracePoint` (TraceSystem.js lines 60-67): push a copy
of the position with `age = 0` onto the rod's path. -/
def TraceSystem.addTracePoint (ts : TraceSystem) (rodId : TraceKey) (position : Vec) :
    TraceSystem :=
  { ts with tracePaths := appendAt rodId ⟨position, 0⟩ ts.tracePaths }

/-- `TraceSystem.addFullRodTrace` (TraceSystem.js lines 77-94): sample
`fullRodTraceSegments + 1` evenly spaced points along the rod segment and
push them as one frame with `age = 0`. -/
def TraceSystem.addFullRodTrace (ts : TraceSystem) (rodId : TraceKey)
    (startPos endPos : Vec) : TraceSystem :=
  let n := ts.fullRodTraceSegments
  let tracePoints := (List.range (n + 1)).map fun i =>
    let t : ℚ := (i : ℚ) / (n : ℚ)
    Vec.mk (startPos.x + (endPos.x - startPos.x) * t)
           (startPos.y + (endPos.y - startPos.y) * t)
  { ts with fullRodTracePaths := appendAt rodId ⟨tracePoints, 0⟩ ts.fullRodTracePaths }

/-- The trace-emission block of `p.draw` (LinkageApp.js lines 146-164),
run only while playing: for each rod in order, append a point sample when
`isTracing` and the joint exists, and a full-rod frame when
`isFullRodTracing` and both endpoints exist. -/
def emitTraces (m : Mechanism) (ts : TraceSystem) : TraceSystem :=
  (List.range m.rods.length).foldl
    (fun acc i =>
      match m.rods.get? i with
      | none => acc
      | some rod =>
        let acc1 :=
          match m.joints.get? i with
          | some j => if rod.isTracing then acc.addTracePoint i j else acc
          | none => acc
        if rod.isFullRodTracing then
          let startPos? := if i = 0 then some m.anchor else m.joints.get? (i - 1)
          match startPos?, m.joints.get? i with
          | some s, some e => acc1.addFullRodTrace i s e
          | _, _ => acc1
        else acc1)
    ts

/-- One simulation tick of `p.draw` (LinkageApp.js lines 133-176), camera
animation and rendering omitted: advance the mechanism (whose stretching
rule reads the live trace-system widths), emit trace samples only while
playing, then age the traces unconditionally. -/
def appTick (o : MathOracle) (mult : ℚ) (m : Mechanism) (ts : TraceSystem) :
    Option (Mechanism × TraceSystem) :=
  match Mechanism.update o (ts.cfg mult) m with
  | none => none
  | some m' =>
    let ts1 := if m'.isPlaying then emitTraces m' ts else ts
    some (m', ts1.update)

/-- Serialized follower-rod record of `StateSerializer.exportState`
(part_013 lines 34-52). -/
structure SerRodData where
  id : ℕ
  length : ℚ
  isTracing : Bool
  isFullRodTracing : Bool
  guidePoint : Option Vec
deriving DecidableEq

/-- The serialized snapshot produced by `StateSerializer.exportState`
(part_013 lines 18-64), flattened field-for-field.  All fields are always
present in an exported snapshot, so the `!== undefined` guards of
`importState` always take their set-branch on a round trip. -/
structure SerState where
  version : String
  timestamp : String
  anchorX : ℚ
  anchorY : ℚ
  crankLength : ℚ
  crankIsTracing : Bool
  crankIsFullRodTracing : Bool
  rods : List SerRodData
  cameraOffsetX : ℚ
  cameraOffsetY : ℚ
  cameraZoom : ℚ
  traceColorR : ℚ
  traceColorG : ℚ
  traceColorB : ℚ
  traceWidth : ℚ
  rodsWidth : ℚ
  isStretchingMode : Bool
  isInverse : Bool
deriving DecidableEq

/-- `StateSerializer.exportState` (part_013 lines 18-64).  `none` models
the TypeError thrown when `rods` is empty (`this.mechanism.rods[0]` is
`undefined`); `now` stands for `new Date().toISOString()`. -/
def exportState (now : String) (m : Mechanism) (c : Camera) (ts : TraceSystem)
    (isInverse : Bool) : Option SerState :=
  match m.rods with
  | [] => none
  | crank :: followerRods =>
    some
      { version := "1.0", timestamp := now
        anchorX := m.anchor.x, anchorY := m.anchor.y
        crankLength := crank.length
        crankIsTracing := crank.isTracing
        crankIsFullRodTracing := crank.isFullRodTracing
        rods := followerRods.map fun rod =>
          { id := rod.id, length := rod.length
            isTracing := rod.isTracing
            isFullRodTracing := rod.isFullRodTracing
            guidePoint := (m.guidePoints.find? fun gp => gp.id == rod.id).map GuidePoint.pos }
        cameraOffsetX := c.offset.x, cameraOffsetY := c.offset.y, cameraZoom := c.zoom
        traceColorR := ts.traceColor.1
        traceColorG := ts.traceColor.2.1
        traceColorB := ts.traceColor.2.2
        traceWidth := ts.traceWidth, rodsWidth := ts.rodsWidth
        isStretchingMode := m.isStretchingMode, isInverse := isInverse }

/-- The mechanism rebuilt by `importState` before its final
`updateJoints`: anchor position, crank from the anchor record, follower
rods with their guide points, and the stretching flag, all from the
snapshot; the remaining fields keep their current values. -/
def importMech (st : SerState) (m : Mechanism) : Mechanism :=
  { m with
      anchor := ⟨st.anchorX, st.anchorY⟩
      rods :=
        ({ (Rod.new 0 st.crankLength) with
            isTracing := st.crankIsTracing
            isFullRodTracing := st.crankIsFullRodTracing } : Rod) ::
          st.rods.map fun rd =>
            ({ (Rod.new rd.id rd.length) with
                isTracing := rd.isTracing
                isFullRodTracing := rd.isFullRodTracing } : Rod)
      guidePoints := st.rods.filterMap fun rd =>
        rd.guidePoint.map fun p => GuidePoint.mk rd.id p
      isStretchingMode := st.isStretchingMode }

/-- The camera restore performed by `importState`. -/
def importCam (st : SerState) (c : Camera) : Camera :=
  { c with offset := ⟨st.cameraOffsetX, st.cameraOffsetY⟩, zoom := st.cameraZoom }

/-- The trace-system restore performed by `importState` (color, trace
width, rods width through the setters). -/
def importTs (st : SerState) (ts : TraceSystem) : TraceSystem :=
  ((ts.setTraceColor st.traceColorR st.traceColorG st.traceColorB).setTraceWidth
      st.traceWidth).setRodsWidth st.rodsWidth

/-- `StateSerializer.importState` (part_013 lines 69-133): validate the
version, rebuild rods and guide points from the snapshot, restore camera
and trace settings, and finally run `updateJoints` (whose stretching rule
reads the freshly restored widths).  `none` models the explicit version
error and the joint-update TypeError. -/
def importState (o : MathOracle) (mult : ℚ) (st : SerState) (m : Mechanism)
    (c : Camera) (ts : TraceSystem) :
    Option (Mechanism × Camera × TraceSystem × Bool) :=
  if st.version ≠ "1.0" then none
  else
    match Mechanism.updateJoints o ((importTs st ts).cfg mult) (importMech st m) with
    | none => none
    | some m2 => some (m2, importCam st c, importTs st ts, st.isInverse)

/-! ### Helper lemmas -/

/-- Unfolding of the backwards aging loop: it ages the processed (reversed)
list up to the first expired point, drops that point and everything after
it in processing order (i.e. everything older), and keeps `acc`. -/
theorem agePointsRev_eq (F : ℕ) : ∀ (l acc : List TracePoint),
    agePointsRev F l acc =
      ((l.takeWhile fun p => decide (p.age + 1 ≤ F)).map
        fun p => { p with age := p.age + 1 }).reverse ++ acc := by
  intro l
  induction l with
  | nil => intro acc; simp [agePointsRev, List.takeWhile]
  | cons p rest ih =>
    intro acc
    simp only [agePointsRev, List.takeWhile]
    by_cases h : p.age + 1 ≤ F
    · have hc : ¬ (p.age + 1 > F) := not_lt.mpr h
      simp only [hc, if_false, h, decide_True]
      rw [ih]
      simp
    · have hc : p.age + 1 > F := lt_of_not_ge h
      simp [hc, h]

/-- The aging pass on one point path never reorders: the result is the
aged image of dropping some prefix (the oldest points) of the path. -/
theorem updatePointPath_drop (F : ℕ) (path : List TracePoint) :
    ∃ k, updatePointPath F path =
      (path.drop k).map fun p => { p with age := p.age + 1 } := by
  unfold updatePointPath
  rw [agePointsRev_eq]
  have hs : (path.reverse.takeWhile fun p => decide (p.age + 1 ≤ F)) ++
      (path.reverse.dropWhile fun p => decide (p.age + 1 ≤ F)) = path.reverse :=
    List.takeWhile_append_dropWhile _ _
  set s := path.reverse.dropWhile fun p => decide (p.age + 1 ≤ F) with hsdef
  refine ⟨s.reverse.length, ?_⟩
  have hrev : path = s.reverse ++
      (path.reverse.takeWhile fun p => decide (p.age + 1 ≤ F)).reverse := by
    have := congrArg List.reverse hs
    simpa using this.symm
  rw [List.append_nil, ← List.map_reverse]
  conv_rhs => rw [hrev]
  rw [List.drop_left]

/-! ### Concrete instances used by witnesses and counterexamples -/

/-- Trivial math oracle for statements that do not depend on the values of
the transcendental functions. -/
def oZero : MathOracle := ⟨fun _ => 0, fun _ => 0, fun _ _ => 0, fun _ => 0⟩

/-- A fixed outcome for the random draws of `addRod`. -/
def rndT : Rand := ⟨true, true, true⟩

/-- Crank-only mechanism in the state reached by loading the Simple Circle
preset (a single crank rod, no followers, no guide points) and running one
`updateJoints`: `joints` holds the crank tip.  Concrete instance used for
the `addRod` edge-case claims. -/
def mCrankOnly : Mechanism :=
  { crankSpeed := 1, crankAngle := 0, isPlaying := true
    isStretchingMode := false, hasTraceSystem := true
    anchor := ⟨0, 0⟩
    rods := [{ (Rod.new 0 80) with isTracing := true }]
    guidePoints := []
    joints := [⟨80, 0⟩] }

/-- Crank-only mechanism before any joint update (`joints` still empty). -/
def mNoJoints : Mechanism := { mCrankOnly with joints := [] }

/-! ### C2 — zoom-anchor invariant -/

/-- C2: for every camera state, world position and zoom factor, `zoomAt`
leaves `worldToScreen` of that world position unchanged, as long as the
resulting zoom did not hit the `minZoom`/`maxZoom` clamp boundary. -/
theorem zoomAt_preserves_worldToScreen (c : Camera) (worldPos : Vec) (factor : ℚ)
    (h : c.minZoom ≤ c.zoom * factor ∧ c.zoom * factor ≤ c.maxZoom) :
    (c.zoomAt worldPos factor).worldToScreen worldPos = c.worldToScreen worldPos := by
  simp only [Camera.zoomAt, Camera.worldToScreen, constrain, Vec.mk.injEq]
  constructor <;> ring

/-- Witness for C2 at a concrete camera, world point and factor. -/
theorem zoomAt_preserves_worldToScreen_witness :
    ((⟨⟨3, 4⟩, 1, 5, 1/10⟩ : Camera).zoomAt ⟨2, 7⟩ 2).worldToScreen ⟨2, 7⟩ =
      (⟨⟨3, 4⟩, 1, 5, 1/10⟩ : Camera).worldToScreen ⟨2, 7⟩ :=
  zoomAt_preserves_worldToScreen ⟨⟨3, 4⟩, 1, 5, 1/10⟩ ⟨2, 7⟩ 2 (by norm_num)

/-! ### C10 — addRod with empty joints is a silent no-op -/

/-- C10: when `joints` is empty, `addRod` returns immediately, leaving the
mechanism completely unchanged (no rod, no guide point, no tracing-flag
mutation) and throwing nothing. -/
theorem addRod_empty_joints_noop (o : MathOracle) (rnd : Rand) (m : Mechanism)
    (h : m.joints = []) :
    Mechanism.addRod o rnd m = ⟨m, false⟩ := by
  unfold Mechanism.addRod
  simp [h]

/-- Witness for C10 on a concrete crank-only mechanism with empty joints. -/
theorem addRod_empty_joints_noop_witness :
    mNoJoints.joints = [] ∧ Mechanism.addRod oZero rndT mNoJoints = ⟨mNoJoints, false⟩ :=
  ⟨rfl, addRod_empty_joints_noop oZero rndT mNoJoints rfl⟩

/-! ### C3 — chain length invariant is broken by addRod on a crank-only chain -/

/-- C3 (failing input): on a crank-only mechanism with non-empty `joints`
— an initial state allowed by the claim (`rods.length = guidePoints.length + 1 = 1`)
and reachable by loading the Simple Circle preset — a single `addRod` call
pushes the new rod, then throws a TypeError reading
`guidePoints[guidePoints.length - 1].pos` before pushing the guide point,
leaving `rods.length = 2` and `guidePoints.length = 0`; the invariant
`rods.length == guidePoints.length + 1` does not survive the call. -/
theorem addRod_crank_only_breaks_invariant :
    (Mechanism.addRod oZero rndT mCrankOnly).threw = true ∧
    (Mechanism.addRod oZero rndT mCrankOnly).mech.rods.length = 2 ∧
    (Mechanism.addRod oZero rndT mCrankOnly).mech.guidePoints.length = 0 ∧
    (Mechanism.addRod oZero rndT mCrankOnly).mech.rods.length ≠
      (Mechanism.addRod oZero rndT mCrankOnly).mech.guidePoints.length + 1 := by
  decide

/-! ### C8 — addRod from a single crank of length 80 -/

/-- C8 (failing input): starting from a single crank of length 80,
`addRod` does push a rod of length `80 * PHI` (or `80 / PHI` on the other
random branch), but then throws the TypeError above and never appends the
claimed guide point — on either branch and regardless of the other draws. -/
theorem addRod_single_crank_throws_without_guidePoint :
    (∀ b2 b3 : Bool,
      (Mechanism.addRod oZero ⟨true, b2, b3⟩ mCrankOnly).threw = true ∧
      (Mechanism.addRod oZero ⟨true, b2, b3⟩ mCrankOnly).mech.guidePoints = [] ∧
      ((Mechanism.addRod oZero ⟨true, b2, b3⟩ mCrankOnly).mech.rods.map Rod.length)
        = [80, 80 * PHI]) ∧
    (∀ b2 b3 : Bool,
      (Mechanism.addRod oZero ⟨false, b2, b3⟩ mCrankOnly).threw = true ∧
      (Mechanism.addRod oZero ⟨false, b2, b3⟩ mCrankOnly).mech.guidePoints = [] ∧
      ((Mechanism.addRod oZero ⟨false, b2, b3⟩ mCrankOnly).mech.rods.map Rod.length)
        = [80, 80 / PHI]) := by
  constructor <;> intro b2 b3 <;> cases b2 <;> cases b3 <;>
    exact ⟨by decide, by decide, rfl⟩

/-! ### C7 — asymmetric eviction comparisons -/

theorem updatePointPath_nil (F : ℕ) : updatePointPath F [] = [] := rfl

theorem updateFullRodPath_nil (F : ℕ) : updateFullRodPath F [] = [] := rfl

theorem updatePointPath_singleton (F : ℕ) (v : Vec) (a : ℕ) :
    updatePointPath F [⟨v, a⟩] = if a + 1 > F then [] else [⟨v, a + 1⟩] := by
  unfold updatePointPath
  rw [show ([⟨v, a⟩] : List TracePoint).reverse = [⟨v, a⟩] from rfl]
  unfold agePointsRev
  split <;> simp [agePointsRev] <;> omega

theorem updateFullRodPath_singleton (F : ℕ) (ps : List Vec) (a : ℕ) :
    updateFullRodPath F [⟨ps, a⟩] = if a + 1 ≥ F then [] else [⟨ps, a + 1⟩] := by
  unfold updateFullRodPath
  simp only [List.map_cons, List.map_nil, List.dropWhile]
  by_cases h : a + 1 ≥ F
  · simp [h]
  · simp [h]

theorem pointPath_iterate (F : ℕ) (v : Vec) :
    ∀ k, k ≤ F → (updatePointPath F)^[k] [⟨v, 0⟩] = [⟨v, k⟩] := by
  intro k
  induction k with
  | zero => intro; rfl
  | succ n ih =>
    intro h
    rw [Function.iterate_succ_apply', ih (Nat.le_of_succ_le h),
      updatePointPath_singleton]
    have : ¬ (n + 1 > F) := by omega
    simp [this]

theorem pointPath_iterate_dead (F : ℕ) (v : Vec) :
    ∀ k, F < k → (updatePointPath F)^[k] [⟨v, 0⟩] = [] := by
  intro k
  induction k with
  | zero => omega
  | succ n ih =>
    intro h
    rw [Function.iterate_succ_apply']
    rcases Nat.lt_or_ge F n with hn | hn
    · rw [ih hn]; rfl
    · have hnF : n = F := by omega
      rw [hnF, pointPath_iterate F v F le_rfl, updatePointPath_singleton]
      simp

theorem fullRodPath_iterate (F : ℕ) (ps : List Vec) :
    ∀ k, k < F → (updateFullRodPath F)^[k] [⟨ps, 0⟩] = [⟨ps, k⟩] := by
  intro k
  induction k with
  | zero => intro; rfl
  | succ n ih =>
    intro h
    rw [Function.iterate_succ_apply', ih (Nat.lt_of_succ_lt h),
      updateFullRodPath_singleton]
    have : ¬ (n + 1 ≥ F) := by omega
    simp [this]

theorem fullRodPath_iterate_dead (F : ℕ) (hF : 1 ≤ F) (ps : List Vec) :
    ∀ k, F ≤ k → (updateFullRodPath F)^[k] [⟨ps, 0⟩] = [] := by
  intro k
  induction k with
  | zero => omega
  | succ n ih =>
    intro h
    rw [Function.iterate_succ_apply']
    rcases Nat.lt_or_ge n F with hn | hn
    · have hnF : n = F - 1 := by omega
      rw [hnF, fullRodPath_iterate F ps (F - 1) (by omega),
        updateFullRodPath_singleton]
      have : F - 1 + 1 ≥ F := by omega
      simp [this]
    · rw [ih hn]; rfl

/-- C7: the two eviction comparisons of `TraceSystem.update` are
asymmetric — a point-trace point survives an aging pass exactly while its
new age does not exceed `fadeLifespan` (`age > F` evicts), while a
full-rod frame is evicted already when its new age reaches `fadeLifespan`
(`age >= F`); consequently a fresh point survives exactly `F` aging
passes and a fresh frame exactly `F - 1`, one tick fewer. -/
theorem trace_eviction_asymmetry (F : ℕ) (hF : 1 ≤ F) (v : Vec) (ps : List Vec) :
    (∀ a, updatePointPath F [⟨v, a⟩] = if a + 1 > F then [] else [⟨v, a + 1⟩]) ∧
    (∀ a, updateFullRodPath F [⟨ps, a⟩] = if a + 1 ≥ F then [] else [⟨ps, a + 1⟩]) ∧
    (∀ k, (updatePointPath F)^[k] [⟨v, 0⟩] ≠ [] ↔ k ≤ F) ∧
    (∀ k, (updateFullRodPath F)^[k] [⟨ps, 0⟩] ≠ [] ↔ k < F) := by
  refine ⟨fun a => updatePointPath_singleton F v a,
          fun a => updateFullRodPath_singleton F ps a, fun k => ?_, fun k => ?_⟩
  · constructor
    · intro hne
      by_contra hk
      exact hne (pointPath_iterate_dead F v k (by omega))
    · intro hk
      rw [pointPath_iterate F v k hk]
      simp
  · constructor
    · intro hne
      by_contra hk
      exact hne (fullRodPath_iterate_dead F hF ps k (by omega))
    · intro hk
      rw [fullRodPath_iterate F ps k hk]
      simp

/-- Witness for C7 at `F = 2` with concrete point and frame data. -/
theorem trace_eviction_asymmetry_witness :
    (updatePointPath 2)^[2] [⟨⟨1, 2⟩, 0⟩] ≠ [] ∧
    (updateFullRodPath 2)^[2] [⟨[⟨1, 2⟩], 0⟩] = [] := by
  obtain ⟨-, -, hp, hf⟩ := trace_eviction_asymmetry 2 (by decide) ⟨1, 2⟩ [⟨1, 2⟩]
  exact ⟨(hp 2).mpr (by decide), by
    by_contra hne
    exact absurd ((hf 2).mp hne) (by decide)⟩

/-! ### C1 — the forward-chain solve of updateJoints -/

/-- Default rod used with `List.getD` (models nothing; out-of-range
accesses never occur under the theorems' hypotheses). -/
def rodD : Rod := Rod.new 0 0

/-- Default vector for `List.getD`. -/
def vecD : Vec := ⟨0, 0⟩

/-- Default guide point for `List.getD`. -/
def gpD : GuidePoint := ⟨0, ⟨0, 0⟩⟩

/-- Index-wise characterization of the follower loop: with one guide point
per follower rod it succeeds, preserves counts, and each output rod and
joint satisfies the aim-at-guide recurrence from its parent joint. -/
theorem followerPass_spec (o : MathOracle) (cfg : TraceCfg) (s : Bool) :
    ∀ (rods : List Rod) (gps : List GuidePoint) (parent : Vec),
      gps.length = rods.length →
      ∃ rs js, followerPass o cfg s parent rods gps = some (rs, js) ∧
        rs.length = rods.length ∧ js.length = rods.length ∧
        ∀ i, i < rods.length →
          (let jprev := if i = 0 then parent else js.getD (i - 1) vecD
           let gp := gps.getD i gpD
           let a := o.atan2 (gp.pos.y - jprev.y) (gp.pos.x - jprev.x)
           let len := if s then stretchLen o cfg jprev gp.pos (rods.getD i rodD).length
                      else (rods.getD i rodD).length
           rs.getD i rodD = { rods.getD i rodD with angle := a, length := len } ∧
           js.getD i vecD = ⟨jprev.x + len * o.cos a, jprev.y + len * o.sin a⟩) := by
  intro rods
  induction rods with
  | nil =>
    intro gps parent hlen
    exact ⟨[], [], rfl, rfl, by simpa using hlen.symm, fun i hi => absurd hi (by simp)⟩
  | cons r rest ih =>
    intro gps parent hlen
    match gps with
    | [] => simp at hlen
    | g :: gs =>
      have hlen' : gs.length = rest.length := by simpa using hlen
      set a0 := o.atan2 (g.pos.y - parent.y) (g.pos.x - parent.x) with ha0
      set len0 := if s then stretchLen o cfg parent g.pos r.length else r.length with hlen0
      set next : Vec := ⟨parent.x + len0 * o.cos a0, parent.y + len0 * o.sin a0⟩ with hnext
      obtain ⟨rs1, js1, heq, hl1, hl2, hidx⟩ := ih gs next hlen'
      refine ⟨{ r with angle := a0, length := len0 } :: rs1, next :: js1, ?_, by simp [hl1],
        by simp [hl2], ?_⟩
      · simp only [followerPass]
        rw [heq]
      · intro i hi
        match i with
        | 0 => exact ⟨rfl, rfl⟩
        | Nat.succ j =>
          have hj : j < rest.length := by simpa using hi
          have hmain := hidx j hj
          simp only at hmain ⊢
          have hgd : (g :: gs).getD (j + 1) gpD = gs.getD j gpD := by
            simp [List.getD]
          have hrd : (r :: rest).getD (j + 1) rodD = rest.getD j rodD := by
            simp [List.getD]
          have hrsd : (({ r with angle := a0, length := len0 } : Rod) :: rs1).getD (j + 1) rodD
              = rs1.getD j rodD := by simp [List.getD]
          have hjd : (next :: js1).getD (j + 1) vecD = js1.getD j vecD := by
            simp [List.getD]
          have hprev : (next :: js1).getD (j + 1 - 1) vecD
              = (if j = 0 then next else js1.getD (j - 1) vecD) := by
            match j with
            | 0 => simp [List.getD]
            | Nat.succ k => simp [List.getD]
          rw [hgd, hrd, hrsd, hjd]
          simp only [Nat.succ_ne_zero, if_false]
          rw [hprev]
          exact hmain

/-- C1: after `updateJoints` on a mechanism with at least one rod and one
guide point per follower rod, the joint count equals the rod count, the
crank tip is `anchor + rods[0].length * (cos crankAngle, sin crankAngle)`
with `rods[0].angle = crankAngle`, and every follower rod `i ≥ 1` is aimed
at its guide point from the previous joint — `rods[i].angle = atan2`
toward `guidePoints[i-1]` — with `joints[i]` advanced by the rod's length
as it stands after any stretching-mode growth of this same pass. -/
theorem updateJoints_forward_chain (o : MathOracle) (cfg : TraceCfg) (m : Mechanism)
    (h1 : m.rods ≠ []) (h2 : m.guidePoints.length = m.rods.length - 1) :
    ∃ m', m.updateJoints o cfg = some m' ∧
      m'.joints.length = m.rods.length ∧
      m'.rods.length = m.rods.length ∧
      (m'.rods.getD 0 rodD).angle = m.crankAngle ∧
      (m'.rods.getD 0 rodD).length = (m.rods.getD 0 rodD).length ∧
      m'.joints.getD 0 vecD =
        ⟨m.anchor.x + (m.rods.getD 0 rodD).length * o.cos m.crankAngle,
         m.anchor.y + (m.rods.getD 0 rodD).length * o.sin m.crankAngle⟩ ∧
      ∀ i, 1 ≤ i → i < m.rods.length →
        (let jprev := m'.joints.getD (i - 1) vecD
         let gp := m.guidePoints.getD (i - 1) gpD
         let a := o.atan2 (gp.pos.y - jprev.y) (gp.pos.x - jprev.x)
         (m'.rods.getD i rodD).angle = a ∧
         (m'.rods.getD i rodD).length =
           (if m.isStretchingMode && m.hasTraceSystem then
              stretchLen o cfg jprev gp.pos (m.rods.getD i rodD).length
            else (m.rods.getD i rodD).length) ∧
         m'.joints.getD i vecD =
           ⟨jprev.x + (m'.rods.getD i rodD).length * o.cos a,
            jprev.y + (m'.rods.getD i rodD).length * o.sin a⟩) := by
  match hrods : m.rods with
  | [] => exact absurd hrods h1
  | r0 :: rest =>
    have hlen : m.guidePoints.length = rest.length := by
      rw [h2, hrods]; simp
    set crankEnd : Vec :=
      ⟨m.anchor.x + r0.length * o.cos m.crankAngle,
       m.anchor.y + r0.length * o.sin m.crankAngle⟩ with hce
    obtain ⟨rs, js, heq, hl1, hl2, hidx⟩ :=
      followerPass_spec o cfg (m.isStretchingMode && m.hasTraceSystem) rest
        m.guidePoints crankEnd hlen
    refine ⟨{ m with
                rods := { r0 with angle := m.crankAngle } :: rs
                joints := crankEnd :: js }, ?_, ?_, ?_, ?_, ?_, ?_, ?_⟩
    · unfold Mechanism.updateJoints
      rw [hrods]
      simp only [heq]
    · simp [hrods, hl2]
    · simp [hrods, hl1]
    · simp [List.getD]
    · simp [hrods, List.getD]
    · simp [hrods, List.getD]
    · intro i hi1 hi2
      obtain ⟨j, rfl⟩ : ∃ j, i = j + 1 := ⟨i - 1, by omega⟩
      have hj : j < rest.length := by
        have h2' := hi2
        simp only [hrods, List.length_cons] at h2'
        omega
      obtain ⟨hR, hJ⟩ := hidx j hj
      rcases j with _ | k
      · simp only [Nat.add_sub_cancel, List.getD_cons_succ, List.getD_cons_zero,
          if_pos rfl] at hR hJ ⊢
        exact ⟨by rw [hR]; try simp [hce], by rw [hR]; try simp [hce],
          by rw [hR, hJ]; try simp [hce]⟩
      · simp only [Nat.add_sub_cancel, Nat.succ_ne_zero, if_false, Nat.succ_sub_one,
          List.getD_cons_succ] at hR hJ ⊢
        exact ⟨by rw [hR]; try simp [hce], by rw [hR]; try simp [hce],
          by rw [hR, hJ]; try simp [hce]⟩

/-! ### C6 — stretching never shrinks a rod -/

theorem stretchLen_le (o : MathOracle) (cfg : TraceCfg) (p g : Vec) (len : ℚ) :
    len ≤ stretchLen o cfg p g len := by
  unfold stretchLen
  dsimp only
  split
  · exact le_of_lt (by assumption)
  · exact le_rfl

theorem followerPass_le (o : MathOracle) (cfg : TraceCfg) (s : Bool) :
    ∀ (rods : List Rod) (gps : List GuidePoint) (parent : Vec) (rs : List Rod)
      (js : List Vec),
      followerPass o cfg s parent rods gps = some (rs, js) →
      ∀ i, (rods.getD i rodD).length ≤ (rs.getD i rodD).length := by
  intro rods
  induction rods with
  | nil =>
    intro gps parent rs js heq i
    simp only [followerPass, Option.some.injEq, Prod.mk.injEq] at heq
    obtain ⟨rfl, rfl⟩ := heq
    exact le_rfl
  | cons r rest ih =>
    intro gps parent rs js heq i
    match gps with
    | [] => simp [followerPass] at heq
    | g :: gs =>
      simp only [followerPass] at heq
      split at heq
      · exact absurd heq (by simp)
      · rename_i rs1 js1 hfp
        simp only [Option.some.injEq, Prod.mk.injEq] at heq
        obtain ⟨hrs, hjs⟩ := heq
        subst hrs
        cases i with
        | zero =>
          simp only [List.getD_cons_zero]
          split
          · exact stretchLen_le o cfg parent g.pos r.length
          · exact le_rfl
        | succ j =>
          simp only [List.getD_cons_succ]
          exact ih gs _ rs1 js1 hfp j

theorem updateJoints_le (o : MathOracle) (cfg : TraceCfg) (m m' : Mechanism)
    (h : m.updateJoints o cfg = some m') :
    ∀ i, (m.rods.getD i rodD).length ≤ (m'.rods.getD i rodD).length := by
  unfold Mechanism.updateJoints at h
  split at h
  · exact absurd h (by simp)
  · rename_i r0 rest hrods
    dsimp only at h
    split at h
    · exact absurd h (by simp)
    · rename_i p rs js hfp
      simp only [Option.some.injEq] at h
      subst h
      intro i
      rw [hrods]
      cases i with
      | zero => simp only [List.getD_cons_zero]; exact le_rfl
      | succ j =>
        simp only [List.getD_cons_succ]
        exact followerPass_le o cfg _ rest m.guidePoints _ rs js hfp j

/-- One "tick with edits" used to state stretch monotonicity across
repeated `updateJoints` calls: between two calls the crank angle may
advance and the user may drag the guide points anywhere; rod lengths are
carried over. -/
def updateWith (o : MathOracle) (cfg : TraceCfg) (m : Mechanism)
    (step : ℚ × List GuidePoint) : Option Mechanism :=
  Mechanism.updateJoints o cfg
    { m with crankAngle := step.1, guidePoints := step.2 }

theorem foldl_updateWith_le (o : MathOracle) (cfg : TraceCfg) :
    ∀ (steps : List (ℚ × List GuidePoint)) (m m' : Mechanism),
      List.foldlM (updateWith o cfg) m steps = some m' →
      ∀ i, (m.rods.getD i rodD).length ≤ (m'.rods.getD i rodD).length := by
  intro steps
  induction steps with
  | nil =>
    intro m m' h i
    simp only [List.foldlM, pure, Option.some.injEq] at h
    subst h
    exact le_rfl
  | cons s ss ih =>
    intro m m' h i
    have hstep : List.foldlM (updateWith o cfg) m (s :: ss)
        = (updateWith o cfg m s).bind fun m1 => List.foldlM (updateWith o cfg) m1 ss := rfl
    rw [hstep] at h
    rcases hu : updateWith o cfg m s with _ | m1
    · rw [hu] at h; simp at h
    · rw [hu] at h
      simp only [Option.some_bind] at h
      exact le_trans (updateJoints_le o cfg _ m1 hu i) (ih m1 m' h i)

/-- C6: with stretching mode on, a follower rod length never decreases:
a single `updateJoints` pass only ever grows each rod (to the
guide-distance-plus-clearances minimum, when that exceeds the current
length), and across any sequence of further passes — with the crank angle
advanced and the guide points dragged anywhere, closer included — every
rod's length stays at least what it was. -/
theorem stretch_length_monotonic (o : MathOracle) (cfg : TraceCfg) (m : Mechanism)
    (hs : m.isStretchingMode = true) :
    (∀ m', m.updateJoints o cfg = some m' →
      ∀ i, (m.rods.getD i rodD).length ≤ (m'.rods.getD i rodD).length) ∧
    (∀ steps m', List.foldlM (updateWith o cfg) m steps = some m' →
      ∀ i, (m.rods.getD i rodD).length ≤ (m'.rods.getD i rodD).length) :=
  ⟨fun m' h i => updateJoints_le o cfg m m' h i,
   fun steps m' h i => foldl_updateWith_le o cfg steps m m' h i⟩

/-- Concrete stretching-mode mechanism for the C6 witness. -/
def mStretchCrank : Mechanism := { mCrankOnly with isStretchingMode := true }

/-- Witness for C6 on a concrete stretching-mode mechanism. -/
theorem stretch_length_monotonic_witness :
    (mStretchCrank.updateJoints oZero ⟨4, 8, 5⟩).elim False
      (fun m' => (mStretchCrank.rods.getD 0 rodD).length ≤ (m'.rods.getD 0 rodD).length) :=
  (stretch_length_monotonic oZero ⟨4, 8, 5⟩ mStretchCrank rfl).1 _ rfl 0

/-- Witness for C1 on the concrete crank-only mechanism. -/
theorem updateJoints_forward_chain_witness :
    (mCrankOnly.updateJoints oZero ⟨4, 8, 5⟩).map (fun m' => m'.joints.length)
      = some mCrankOnly.rods.length := by
  obtain ⟨m', h1, h2, -⟩ :=
    updateJoints_forward_chain oZero ⟨4, 8, 5⟩ mCrankOnly (by decide) (by decide)
  rw [h1]
  simp [h2]

/-! ### C4 — trace point lifetime window -/

/-- Per-tick effect of the draw loop on one tracing rod's point path while
playing (LinkageApp.js lines 146-167): the freshly sampled joint position
is appended with age 0, then the aging/eviction pass runs over the path. -/
def tickAppendAge (F : ℕ) (pos : Vec) (path : List TracePoint) : List TracePoint :=
  updatePointPath F (path ++ [⟨pos, 0⟩])

/-- Point path of a rod whose joint samples `posf t` on tick `t`
(ticks 1-based), starting from an empty path, observed after `t` ticks. -/
def pathAfter (F : ℕ) (posf : ℕ → Vec) : ℕ → List TracePoint
  | 0 => []
  | t + 1 => tickAppendAge F (posf (t + 1)) (pathAfter F posf t)

/-- Closed form of `pathAfter`: the samples of the last `min t F` ticks,
oldest first, the tick-`T` sample carrying age `t + 1 - T`. -/
def windowSpec (F : ℕ) (posf : ℕ → Vec) (t : ℕ) : List TracePoint :=
  (List.range' (t + 1 - min t F) (min t F)).map fun T => ⟨posf T, t + 1 - T⟩

theorem takeWhile_age_eq_filter (F : ℕ) :
    ∀ l : List TracePoint, l.Pairwise (fun p q => p.age ≤ q.age) →
      l.takeWhile (fun p => decide (p.age + 1 ≤ F))
        = l.filter (fun p => decide (p.age + 1 ≤ F)) := by
  intro l
  induction l with
  | nil => intro; rfl
  | cons x xs ih =>
    intro hp
    rw [List.pairwise_cons] at hp
    obtain ⟨hx, hxs⟩ := hp
    by_cases h : x.age + 1 ≤ F
    · simp only [List.takeWhile_cons, List.filter_cons, h, decide_True, if_true,
        List.cons.injEq, true_and]
      exact ih hxs
    · have hall : xs.filter (fun p => decide (p.age + 1 ≤ F)) = [] := by
        rw [List.filter_eq_nil_iff]
        intro a ha
        simp only [decide_eq_true_eq]
        have := hx a ha
        omega
      simp only [List.takeWhile_cons, List.filter_cons, h, decide_False, if_false, hall,
        Bool.false_eq_true]

/-- On a path whose ages never increase from head to tail — the invariant
of every reachable trace buffer — the backwards aging loop is the same as
aging every point and keeping those not beyond the lifespan. -/
theorem updatePointPath_sorted (F : ℕ) (path : List TracePoint)
    (h : path.Pairwise fun p q => q.age ≤ p.age) :
    updatePointPath F path =
      (path.map fun p => { p with age := p.age + 1 }).filter
        fun p => decide (p.age ≤ F) := by
  unfold updatePointPath
  rw [agePointsRev_eq, List.append_nil]
  rw [takeWhile_age_eq_filter F path.reverse (by
    rw [List.pairwise_reverse]
    exact h)]
  rw [List.filter_reverse, List.map_reverse, List.reverse_reverse]
  rw [List.filter_map]
  rfl

theorem windowSpec_append_sorted (F : ℕ) (posf : ℕ → Vec) (t : ℕ) :
    (windowSpec F posf t ++ [(⟨posf (t + 1), 0⟩ : TracePoint)]).Pairwise
      fun p q => q.age ≤ p.age := by
  rw [List.pairwise_append]
  refine ⟨?_, List.pairwise_singleton _ _, ?_⟩
  · unfold windowSpec
    refine List.Pairwise.map _ ?_ (List.pairwise_lt_range' _ _)
    intro a b hab
    simp only
    omega
  · intro p _ q hq
    simp only [List.mem_singleton] at hq
    subst hq
    simp

/-- The closed form of a tracing rod's point path: after `t` ticks the
path holds exactly the samples of the last `min t F` ticks, oldest first,
the tick-`T` sample carrying age `t + 1 - T`. -/
theorem pathAfter_closed (F : ℕ) (hF : 1 ≤ F) (posf : ℕ → Vec) :
    ∀ t, pathAfter F posf t = windowSpec F posf t := by
  intro t
  induction t with
  | zero => simp [pathAfter, windowSpec]
  | succ t ih =>
    rw [pathAfter, ih, tickAppendAge,
      updatePointPath_sorted F _ (windowSpec_append_sorted F posf t)]
    rw [List.map_append, List.filter_append]
    have h2 : (([⟨posf (t + 1), 0⟩] : List TracePoint).map
          fun p => { p with age := p.age + 1 }).filter (fun p => decide (p.age ≤ F))
        = [⟨posf (t + 1), 1⟩] := by
      simp [hF]
    rw [h2]
    unfold windowSpec
    rw [List.map_map]
    have hminle : min t F ≤ t := Nat.min_le_left t F
    have hmap : (List.range' (t + 1 - min t F) (min t F)).map
        ((fun p => { p with age := p.age + 1 }) ∘ fun T => (⟨posf T, t + 1 - T⟩ : TracePoint))
        = (List.range' (t + 1 - min t F) (min t F)).map
            fun T => (⟨posf T, t + 2 - T⟩ : TracePoint) := by
      apply List.map_congr_left
      intro T hT
      rw [List.mem_range'_1] at hT
      simp only [Function.comp]
      have : t + 1 - T + 1 = t + 2 - T := by omega
      rw [this]
    rw [hmap]
    rcases Nat.lt_or_ge t F with hc | hc
    · -- still filling up: every aged sample stays within the lifespan
      have hmin_t : min t F = t := Nat.min_eq_left (by omega)
      have hmin_t1 : min (t + 1) F = t + 1 := Nat.min_eq_left (by omega)
      rw [hmin_t, hmin_t1]
      rw [show t + 1 - t = 1 from by omega, show t + 1 + 1 - (t + 1) = 1 from by omega]
      have hg : (List.range' 1 (t + 1)).map
            (fun T => (⟨posf T, t + 1 + 1 - T⟩ : TracePoint))
          = (List.range' 1 (t + 1)).map fun T => (⟨posf T, t + 2 - T⟩ : TracePoint) := by
        apply List.map_congr_left
        intro T hT
        rw [show t + 1 + 1 - T = t + 2 - T from by omega]
      rw [hg]
      have hkeep : ((List.range' 1 t).map
            fun T => (⟨posf T, t + 2 - T⟩ : TracePoint)).filter
              (fun p => decide (p.age ≤ F))
          = (List.range' 1 t).map fun T => (⟨posf T, t + 2 - T⟩ : TracePoint) := by
        apply List.filter_eq_self.mpr
        intro p hp
        rw [List.mem_map] at hp
        obtain ⟨T, hT, rfl⟩ := hp
        rw [List.mem_range'_1] at hT
        simp only [decide_eq_true_eq]
        omega
      rw [hkeep, List.range'_concat, List.map_append]
      rw [show 1 + 1 * t = t + 1 from by omega]
      simp only [List.map_cons, List.map_nil]
      rw [show t + 2 - (t + 1) = 1 from by omega]
    · -- saturated: the oldest sample ages past the lifespan and is evicted
      obtain ⟨F', rfl⟩ : ∃ F', F = F' + 1 := ⟨F - 1, by omega⟩
      have hmin_t : min t (F' + 1) = F' + 1 := Nat.min_eq_right (by omega)
      have hmin_t1 : min (t + 1) (F' + 1) = F' + 1 := Nat.min_eq_right (by omega)
      rw [hmin_t, hmin_t1]
      have hg : (List.range' (t + 1 + 1 - (F' + 1)) (F' + 1)).map
            (fun T => (⟨posf T, t + 1 + 1 - T⟩ : TracePoint))
          = (List.range' (t + 1 + 1 - (F' + 1)) (F' + 1)).map
              fun T => (⟨posf T, t + 2 - T⟩ : TracePoint) := by
        apply List.map_congr_left
        intro T hT
        rw [show t + 1 + 1 - T = t + 2 - T from by omega]
      rw [hg, List.range'_succ, List.map_cons, List.filter_cons]
      have hage : ¬ (t + 2 - (t + 1 - (F' + 1)) ≤ F' + 1) := by omega
      simp only [hage, decide_False, if_false, Bool.false_eq_true]
      have hkeep : ((List.range' (t + 1 - (F' + 1) + 1) F').map
            fun T => (⟨posf T, t + 2 - T⟩ : TracePoint)).filter
              (fun p => decide (p.age ≤ F' + 1))
          = (List.range' (t + 1 - (F' + 1) + 1) F').map
              fun T => (⟨posf T, t + 2 - T⟩ : TracePoint) := by
        apply List.filter_eq_self.mpr
        intro p hp
        rw [List.mem_map] at hp
        obtain ⟨T, hT, rfl⟩ := hp
        rw [List.mem_range'_1] at hT
        simp only [decide_eq_true_eq]
        omega
      rw [hkeep]
      rw [show t + 1 - (F' + 1) + 1 = t + 1 + 1 - (F' + 1) from by omega]
      rw [List.range'_concat, List.map_append]
      rw [show t + 1 + 1 - (F' + 1) + 1 * F' = t + 1 from by omega]
      simp only [List.map_cons, List.map_nil]
      rw [show t + 2 - (t + 1) = 1 from by omega]

/-- Membership in the trace buffer, via the closed form: the tick-`T`
sample is in the buffer after `t` ticks iff `T` lies in the live window,
and then its age is exactly `t + 1 - T`. -/
theorem mem_pathAfter_iff (F : ℕ) (hF : 1 ≤ F) (posf : ℕ → Vec)
    (hinj : Function.Injective posf) (T t a : ℕ) :
    (⟨posf T, a⟩ : TracePoint) ∈ pathAfter F posf t ↔
      (t + 1 - min t F ≤ T ∧ T < t + 1 ∧ a = t + 1 - T) := by
  have hminle : min t F ≤ t := Nat.min_le_left t F
  rw [pathAfter_closed F hF posf t]
  unfold windowSpec
  rw [List.mem_map]
  constructor
  · rintro ⟨T', hT', heq⟩
    rw [List.mem_range'_1] at hT'
    have hTT : T' = T := hinj (congrArg TracePoint.pos heq)
    subst hTT
    have hage : t + 1 - T' = a := congrArg TracePoint.age heq
    exact ⟨hT'.1, by omega, hage.symm⟩
  · rintro ⟨h1, h2, rfl⟩
    refine ⟨T, ?_, rfl⟩
    rw [List.mem_range'_1]
    exact ⟨h1, by omega⟩

/-- The single-rod scenario mechanism: anchor at the origin, one crank rod
of length 100 with point tracing on, playing, stretching off.  `a` is the
rod's last-computed angle (derived state), `j` the joints list. -/
def scenarioMech (s θ a : ℚ) (j : List Vec) : Mechanism :=
  { crankSpeed := s, crankAngle := θ, isPlaying := true
    isStretchingMode := false, hasTraceSystem := true
    anchor := ⟨0, 0⟩
    rods := [⟨0, 100, a, true, false⟩]
    guidePoints := []
    joints := j }

/-- Crank tip position of the scenario mechanism at crank angle `α`. -/
def scenarioTip (o : MathOracle) (α : ℚ) : Vec :=
  ⟨0 + 100 * o.cos α, 0 + 100 * o.sin α⟩

/-- One `p.draw` tick of the single-rod scenario acts on the rod's point
path exactly as `tickAppendAge` with the freshly computed crank tip. -/
theorem appTick_scenario (o : MathOracle) (mult θ s a : ℚ) (j : List Vec)
    (ts : TraceSystem) (path : List TracePoint)
    (hpath : ts.tracePaths = [(0, path)]) (hfull : ts.fullRodTracePaths = []) :
    appTick o mult (scenarioMech s θ a j) ts =
      some (scenarioMech s (θ + s) (θ + s) [scenarioTip o (θ + s)],
        { ts with
            tracePaths :=
              [(0, tickAppendAge ts.fadeLifespan (scenarioTip o (θ + s)) path)]
            fullRodTracePaths := [] }) := by
  cases ts
  subst hpath hfull
  rfl

/-- Concrete injective tick-to-position assignment for small instances. -/
def posfW : ℕ → Vec := fun T => ⟨T, 0⟩

theorem posfW_injective : Function.Injective posfW := by
  intro a b h
  have hx := congrArg Vec.x h
  simpa [posfW] using hx

/-- C4 (amended): with `fadeLifespan = F`, a point-trace point appended at
tick `T` is present in the buffer (hence in bounds and render, both taken
after the aging pass of the tick) for ticks `[T, T + F - 1]` and absent
from tick `T + F` on — the fresh point is aged to 1 within its own
appending tick; eviction removes only a prefix of the buffer (the oldest
end) and never reorders; and in the single-rod scenario with `F = 360` and
one point per tick, the first point has age 360 after exactly 360 ticks,
is evicted on the 361st tick, and the buffer length stabilizes at
`min t 360 = 360` points. -/
theorem trace_point_lifetime (F : ℕ) (hF : 1 ≤ F) (posf : ℕ → Vec)
    (hinj : Function.Injective posf) :
    (∀ t, pathAfter F posf t = windowSpec F posf t) ∧
    (∀ T t, 1 ≤ T → T ≤ t →
      ((∃ a, (⟨posf T, a⟩ : TracePoint) ∈ pathAfter F posf t) ↔ t ≤ T + F - 1)) ∧
    (∀ path, ∃ k, updatePointPath F path
      = (path.drop k).map fun p => { p with age := p.age + 1 }) ∧
    (∀ t, (pathAfter 360 posf t).length = min t 360) ∧
    (⟨posf 1, 360⟩ : TracePoint) ∈ pathAfter 360 posf 360 ∧
    (∀ a, (⟨posf 1, a⟩ : TracePoint) ∉ pathAfter 360 posf 361) := by
  refine ⟨pathAfter_closed F hF posf, ?_,
    fun path => updatePointPath_drop F path, ?_, ?_, ?_⟩
  · intro T t hT1 hTt
    constructor
    · rintro ⟨a, ha⟩
      rw [mem_pathAfter_iff F hF posf hinj] at ha
      obtain ⟨h1, h2, rfl⟩ := ha
      rcases Nat.le_total t F with hc | hc
      · omega
      · have hm : min t F = F := Nat.min_eq_right hc
        omega
    · intro ht
      refine ⟨t + 1 - T, ?_⟩
      rw [mem_pathAfter_iff F hF posf hinj]
      rcases Nat.le_total t F with hc | hc
      · have hm : min t F = t := Nat.min_eq_left hc
        omega
      · have hm : min t F = F := Nat.min_eq_right hc
        omega
  · intro t
    rw [pathAfter_closed 360 (by omega) posf t]
    unfold windowSpec
    rw [List.length_map, List.length_range']
  · rw [mem_pathAfter_iff 360 (by omega) posf hinj]
    have hm : min 360 360 = 360 := Nat.min_self 360
    omega
  · intro a ha
    rw [mem_pathAfter_iff 360 (by omega) posf hinj] at ha
    have hm : min 361 360 = 360 := Nat.min_eq_right (by omega)
    omega

/-- C4 counterexample to the claim as stated: with `fadeLifespan = 1`, the
point appended at tick `T = 1` is already absent at tick `T + F = 2` — the
buffer then holds only the tick-2 sample — refuting the claimed presence
window `[T, T + F]`. -/
theorem trace_point_lifetime_counterexample :
    pathAfter 1 posfW 2 = [⟨posfW 2, 1⟩] ∧
    (⟨posfW 1, 2⟩ : TracePoint) ∉ pathAfter 1 posfW 2 := by
  have hcf : pathAfter 1 posfW 2 = [⟨posfW 2, 1⟩] := by
    rw [pathAfter_closed 1 (by omega) posfW 2]
    rfl
  refine ⟨hcf, ?_⟩
  rw [hcf]
  intro hmem
  simp only [List.mem_singleton] at hmem
  have hage := congrArg TracePoint.age hmem
  simp only at hage
  omega

/-- Witness for C4 at `F = 2` on a concrete injective sample stream. -/
theorem trace_point_lifetime_witness :
    pathAfter 2 posfW 1 = windowSpec 2 posfW 1 :=
  (trace_point_lifetime 2 (by omega) posfW posfW_injective).1 1

/-! ### C5 — aging is not gated by the playing state -/

theorem updateJoints_isPlaying (o : MathOracle) (cfg : TraceCfg) (m m' : Mechanism)
    (h : m.updateJoints o cfg = some m') : m'.isPlaying = m.isPlaying := by
  unfold Mechanism.updateJoints at h
  split at h
  · exact absurd h (by simp)
  · dsimp only at h
    split at h
    · exact absurd h (by simp)
    · simp only [Option.some.injEq] at h
      subst h
      rfl

theorem update_isPlaying (o : MathOracle) (cfg : TraceCfg) (m m' : Mechanism)
    (h : m.update o cfg = some m') : m'.isPlaying = m.isPlaying := by
  unfold Mechanism.update at h
  rcases hb : m.isPlaying with _ | _
  · rw [hb, if_neg (by simp)] at h
    exact (updateJoints_isPlaying o cfg _ m' h).trans hb
  · rw [hb, if_pos rfl] at h
    have hh := updateJoints_isPlaying o cfg _ m' h
    exact hh.trans rfl

theorem lookup_map_paths {α : Type} (f : List α → List α) (k : TraceKey) :
    ∀ l : List (TraceKey × List α),
      (l.map fun kp => (kp.1, f kp.2)).lookup k = (l.lookup k).map f := by
  intro l
  induction l with
  | nil => rfl
  | cons kp rest ih =>
    obtain ⟨k', v⟩ := kp
    simp only [List.map_cons, List.lookup]
    by_cases hk : k = k'
    · rw [show (k == k') = true from by simp [hk]]
      rfl
    · rw [show (k == k') = false from by simp [hk]]
      exact ih

/-- C5 (amended): while the mechanism is paused, no trace point is emitted
— but aging is not suspended: `p.draw` calls `traceSystem.update()`
unconditionally, so on a paused tick the whole trace system still takes an
aging pass, and every still-live path is aged by one (with eviction);
paused traces do fade. -/
theorem paused_tick_still_ages (o : MathOracle) (mult : ℚ) (m m' : Mechanism)
    (ts ts' : TraceSystem) (hpause : m.isPlaying = false)
    (h : appTick o mult m ts = some (m', ts')) :
    ts' = ts.update ∧
    ∀ k path, ts.tracePaths.lookup k = some path →
      ts'.tracePaths.lookup k = some (updatePointPath ts.fadeLifespan path) := by
  unfold appTick at h
  split at h
  · exact absurd h (by simp)
  · rename_i m1 hm1
    have hp1 : m1.isPlaying = false := by
      rw [update_isPlaying o _ m m1 hm1, hpause]
    rw [hp1] at h
    simp only [Bool.false_eq_true, if_false, Option.some.injEq, Prod.mk.injEq] at h
    obtain ⟨-, hts⟩ := h
    subst hts
    refine ⟨rfl, fun k path hk => ?_⟩
    unfold TraceSystem.update
    dsimp only
    rw [lookup_map_paths, hk]
    rfl

/-- Paused crank-only mechanism for the C5 counterexample and witness. -/
def mPausedC : Mechanism := { mCrankOnly with isPlaying := false }

/-- Trace system holding one fresh point, for the C5 counterexample. -/
def tsC5 : TraceSystem :=
  { TraceSystem.init with tracePaths := [(0, [⟨⟨0, 0⟩, 0⟩])], fadeLifespan := 5 }

/-- C5 counterexample to the claim as stated: on a tick with
`isPlaying = false`, the single recorded point's age changes from 0 to 1 —
aging is not suspended while paused. -/
theorem paused_tick_still_ages_counterexample :
    mPausedC.isPlaying = false ∧
    tsC5.tracePaths = [(0, [⟨⟨0, 0⟩, 0⟩])] ∧
    (appTick oZero 5 mPausedC tsC5).map (fun p => p.2.tracePaths)
      = some [(0, [⟨⟨0, 0⟩, 1⟩])] ∧
    ([(0, [(⟨⟨0, 0⟩, 1⟩ : TracePoint)])] ≠ [(0, [(⟨⟨0, 0⟩, 0⟩ : TracePoint)])]) := by
  refine ⟨rfl, rfl, rfl, ?_⟩
  intro heq
  simp only [List.cons.injEq, Prod.mk.injEq, TracePoint.mk.injEq] at heq
  omega

/-- Witness for C5 at the concrete paused state. -/
theorem paused_tick_still_ages_witness :
    (appTick oZero 5 mPausedC tsC5).map Prod.snd = some tsC5.update := by
  rcases hap : appTick oZero 5 mPausedC tsC5 with _ | ⟨m1, ts1⟩
  · have hsome : (appTick oZero 5 mPausedC tsC5).isSome = true := rfl
    rw [hap] at hsome
    simp at hsome
  · have hres := (paused_tick_still_ages oZero 5 mPausedC m1 tsC5 ts1 rfl hap).1
    have hmap : Option.map Prod.snd (some (m1, ts1)) = some ts1 := rfl
    rw [hmap, hres]

/-! ### C9 — export/import round trip -/

/-- The serialized identity of a rod: id, length and the two tracing
flags (`angle` is derived state, recomputed by `updateJoints`). -/
def rodKey (r : Rod) : ℕ × ℚ × Bool × Bool :=
  (r.id, r.length, r.isTracing, r.isFullRodTracing)

/-- With stretching off, the follower pass only rewrites angles: ids,
lengths and tracing flags are untouched. -/
theorem followerPass_rodKey (o : MathOracle) (cfg : TraceCfg) :
    ∀ (rods : List Rod) (gps : List GuidePoint) (parent : Vec) (rs : List Rod)
      (js : List Vec),
      followerPass o cfg false parent rods gps = some (rs, js) →
      rs.map rodKey = rods.map rodKey := by
  intro rods
  induction rods with
  | nil =>
    intro gps parent rs js heq
    simp only [followerPass, Option.some.injEq, Prod.mk.injEq] at heq
    obtain ⟨rfl, rfl⟩ := heq
    rfl
  | cons r rest ih =>
    intro gps parent rs js heq
    match gps with
    | [] => simp [followerPass] at heq
    | g :: gs =>
      simp only [followerPass] at heq
      split at heq
      · exact absurd heq (by simp)
      · rename_i rs1 js1 hfp
        simp only [Option.some.injEq, Prod.mk.injEq] at heq
        obtain ⟨hrs, -⟩ := heq
        subst hrs
        simp only [List.map_cons, List.cons.injEq]
        exact ⟨rfl, ih gs _ rs1 js1 hfp⟩

/-- Exporting the follower rods of a mechanism with canonical consecutive
ids pairs each rod with its own guide point, and re-importing the
serialized guide points reconstructs the original list exactly. -/
theorem reconstruct_gps :
    ∀ (fs : List Rod) (gs : List GuidePoint) (st : ℕ),
      fs.map Rod.id = List.range' st fs.length →
      gs.map GuidePoint.id = List.range' st gs.length →
      gs.length = fs.length →
      ((fs.map fun rod =>
          ({ id := rod.id, length := rod.length, isTracing := rod.isTracing
             isFullRodTracing := rod.isFullRodTracing
             guidePoint := (gs.find? fun gp => gp.id == rod.id).map GuidePoint.pos }
            : SerRodData)).filterMap
        fun rd => rd.guidePoint.map fun p => GuidePoint.mk rd.id p) = gs := by
  intro fs
  induction fs with
  | nil =>
    intro gs st _ _ hlen
    match gs with
    | [] => rfl
    | g :: gs' => simp at hlen
  | cons f fs' ih =>
    intro gs st hf hg hlen
    match gs with
    | [] => simp at hlen
    | g :: gs' =>
      obtain ⟨gid, gpos⟩ := g
      simp only [List.map_cons, List.length_cons, List.range'_succ,
        List.cons.injEq] at hf hg
      obtain ⟨hf0, hf1⟩ := hf
      obtain ⟨hg0, hg1⟩ := hg
      have hlen' : gs'.length = fs'.length := by simpa using hlen
      have hmapeq : (fs'.map fun rod =>
          ({ id := rod.id, length := rod.length, isTracing := rod.isTracing
             isFullRodTracing := rod.isFullRodTracing
             guidePoint :=
               ((⟨gid, gpos⟩ :: gs' : List GuidePoint).find? fun gp => gp.id == rod.id).map
                 GuidePoint.pos } : SerRodData))
          = fs'.map fun rod =>
          ({ id := rod.id, length := rod.length, isTracing := rod.isTracing
             isFullRodTracing := rod.isFullRodTracing
             guidePoint := (gs'.find? fun gp => gp.id == rod.id).map GuidePoint.pos }
            : SerRodData) := by
        apply List.map_congr_left
        intro r hr
        have hrid : r.id ∈ List.range' (st + 1) fs'.length := by
          rw [← hf1]
          exact List.mem_map_of_mem Rod.id hr
        rw [List.mem_range'_1] at hrid
        have hne : gid ≠ r.id := by omega
        have hftail : List.find? (fun gp => gp.id == r.id)
            ((⟨gid, gpos⟩ : GuidePoint) :: gs')
            = List.find? (fun gp => gp.id == r.id) gs' := by
          simp [List.find?_cons, hne]
        rw [hftail]
      simp only [List.map_cons]
      rw [hmapeq]
      have hfhead : List.find? (fun gp => gp.id == f.id)
          ((⟨gid, gpos⟩ : GuidePoint) :: gs') = some ⟨gid, gpos⟩ := by
        simp [List.find?_cons, hf0, hg0]
      rw [hfhead]
      simp only [List.filterMap_cons, Option.map_some']
      rw [ih gs' (st + 1) hf1 hg1 hlen']
      simp only [List.cons.injEq, and_true]
      rw [hf0, hg0]

theorem updateJoints_total (o : MathOracle) (cfg : TraceCfg) (m : Mechanism)
    (h1 : m.rods ≠ []) (h2 : m.guidePoints.length = m.rods.length - 1) :
    ∃ m', m.updateJoints o cfg = some m' := by
  match hrods : m.rods with
  | [] => exact absurd hrods h1
  | r0 :: rest =>
    have hlen : m.guidePoints.length = rest.length := by
      rw [h2, hrods]; simp
    obtain ⟨rs, js, heq, -⟩ :=
      followerPass_spec o cfg (m.isStretchingMode && m.hasTraceSystem) rest
        m.guidePoints
        ⟨m.anchor.x + r0.length * o.cos m.crankAngle,
         m.anchor.y + r0.length * o.sin m.crankAngle⟩ hlen
    refine ⟨{ m with
        rods := { r0 with angle := m.crankAngle } :: rs
        joints := (⟨m.anchor.x + r0.length * o.cos m.crankAngle,
                    m.anchor.y + r0.length * o.sin m.crankAngle⟩ : Vec) :: js }, ?_⟩
    unfold Mechanism.updateJoints
    rw [hrods]
    dsimp only
    simp only [heq]

/-- When the stretching rule is disabled (flag off or no trace system),
`updateJoints` only rewrites angles and joints: rod ids, lengths and
tracing flags, the guide points, and the mode flags are unchanged. -/
theorem updateJoints_rodKey (o : MathOracle) (cfg : TraceCfg) (m m' : Mechanism)
    (hs : (m.isStretchingMode && m.hasTraceSystem) = false)
    (h : m.updateJoints o cfg = some m') :
    m'.rods.map rodKey = m.rods.map rodKey ∧
    m'.guidePoints = m.guidePoints ∧
    m'.isStretchingMode = m.isStretchingMode := by
  unfold Mechanism.updateJoints at h
  split at h
  · exact absurd h (by simp)
  · rename_i r0 rest hrods
    dsimp only at h
    rw [hs] at h
    split at h
    · exact absurd h (by simp)
    · rename_i p rs js hfp
      simp only [Option.some.injEq] at h
      subst h
      refine ⟨?_, rfl, rfl⟩
      rw [hrods]
      simp only [List.map_cons, List.cons.injEq]
      exact ⟨rfl, followerPass_rodKey o cfg rest m.guidePoints _ rs js hfp⟩

theorem followerPass_some_of_le (o : MathOracle) (cfg : TraceCfg) (s : Bool) :
    ∀ (rods : List Rod) (gps : List GuidePoint) (parent : Vec),
      rods.length ≤ gps.length →
      ∃ p, followerPass o cfg s parent rods gps = some p := by
  intro rods
  induction rods with
  | nil => intro gps parent _; exact ⟨([], []), rfl⟩
  | cons r rest ih =>
    intro gps parent hle
    match gps with
    | [] => simp at hle
    | g :: gs =>
      have hle' : rest.length ≤ gs.length := by simpa using hle
      obtain ⟨⟨rs1, js1⟩, hp⟩ := ih gs
        ⟨parent.x + (if s then stretchLen o cfg parent g.pos r.length else r.length) *
            o.cos (o.atan2 (g.pos.y - parent.y) (g.pos.x - parent.x)),
         parent.y + (if s then stretchLen o cfg parent g.pos r.length else r.length) *
            o.sin (o.atan2 (g.pos.y - parent.y) (g.pos.x - parent.x))⟩ hle'
      refine ⟨({ r with
          angle := o.atan2 (g.pos.y - parent.y) (g.pos.x - parent.x)
          length := if s then stretchLen o cfg parent g.pos r.length else r.length } :: rs1,
        (⟨parent.x + (if s then stretchLen o cfg parent g.pos r.length else r.length) *
              o.cos (o.atan2 (g.pos.y - parent.y) (g.pos.x - parent.x)),
          parent.y + (if s then stretchLen o cfg parent g.pos r.length else r.length) *
              o.sin (o.atan2 (g.pos.y - parent.y) (g.pos.x - parent.x))⟩ : Vec) :: js1), ?_⟩
      simp only [followerPass]
      rw [hp]

theorem updateJoints_none (o : MathOracle) (cfg : TraceCfg) (m : Mechanism)
    (h : m.updateJoints o cfg = none) :
    m.rods = [] ∨ m.guidePoints.length < m.rods.length - 1 := by
  by_contra hcon
  push_neg at hcon
  obtain ⟨h1, h2⟩ := hcon
  match hrods : m.rods with
  | [] => exact h1 hrods
  | r0 :: rest =>
    rw [hrods] at h2
    simp only [List.length_cons] at h2
    obtain ⟨⟨rs, js⟩, hp⟩ :=
      followerPass_some_of_le o cfg (m.isStretchingMode && m.hasTraceSystem) rest
        m.guidePoints
        ⟨m.anchor.x + r0.length * o.cos m.crankAngle,
         m.anchor.y + r0.length * o.sin m.crankAngle⟩ (by omega)
    unfold Mechanism.updateJoints at h
    rw [hrods] at h
    dsimp only at h
    rw [hp] at h
    cases h

/-- C9 (amended): on a mechanism with canonical consecutive ids whose
stretching mode is off, `importState (exportState ())` restores the state
at the serialization boundary exactly: every rod's id, length and tracing
flags in order, every guide point (id and exact position), the camera
offset and zoom, the trace color and widths, and the `isStretchingMode`
and `isInverse` flags — all values copied verbatim, no arithmetic.  (With
stretching mode on, the `updateJoints` call at the end of `importState`
may grow rod lengths immediately, breaking bit-identical restoration; see
the counterexample.) -/
theorem export_import_roundtrip (o : MathOracle) (mult : ℚ) (now : String)
    (m : Mechanism) (c : Camera) (ts : TraceSystem) (inv : Bool)
    (hids : m.rods.map Rod.id = List.range' 0 m.rods.length)
    (hgids : m.guidePoints.map GuidePoint.id = List.range' 1 m.guidePoints.length)
    (hlen : m.rods.length = m.guidePoints.length + 1)
    (hstretch : m.isStretchingMode = false) :
    ∃ m2 c2 ts2 inv2,
      (exportState now m c ts inv).bind
        (fun st => importState o mult st m c ts) = some (m2, c2, ts2, inv2) ∧
      m2.rods.map rodKey = m.rods.map rodKey ∧
      m2.guidePoints = m.guidePoints ∧
      m2.isStretchingMode = m.isStretchingMode ∧
      c2.offset = c.offset ∧ c2.zoom = c.zoom ∧
      ts2.traceWidth = ts.traceWidth ∧ ts2.rodsWidth = ts.rodsWidth ∧
      ts2.traceColor = ts.traceColor ∧ inv2 = inv := by
  match hrods : m.rods with
  | [] =>
    rw [hrods] at hlen
    simp at hlen
  | crank :: followers =>
    have hids' := hids
    rw [hrods] at hids'
    simp only [List.map_cons, List.length_cons, List.range'_succ, List.cons.injEq,
      Nat.zero_add] at hids'
    obtain ⟨hc0, hfid⟩ := hids'
    have hglen : m.guidePoints.length = followers.length := by
      rw [hrods] at hlen
      simp only [List.length_cons] at hlen
      omega
    have hgids' : m.guidePoints.map GuidePoint.id
        = List.range' 1 m.guidePoints.length := hgids
    rw [hglen] at hgids'
    have hrec := reconstruct_gps followers m.guidePoints 1 hfid
      (by rw [hglen]; exact hgids') hglen
    unfold exportState
    rw [hrods]
    simp only [Option.some_bind]
    unfold importState
    rw [if_neg (by simp)]
    split
    · rename_i hnone
      exfalso
      rcases updateJoints_none o _ _ hnone with hbad | hbad
      · dsimp only [importMech] at hbad
        cases hbad
      · dsimp only [importMech] at hbad
        rw [hrec] at hbad
        simp only [List.length_cons, List.length_map] at hbad
        omega
    · rename_i m2' hupd
      refine ⟨m2', _, _, _, rfl, ?_, ?_, ?_, rfl, rfl, rfl, rfl, rfl, rfl⟩
      · obtain ⟨hrk, -, -⟩ := updateJoints_rodKey o _ _ m2'
          (by dsimp only [importMech]; rw [hstretch]; rfl) hupd
        rw [hrk]
        dsimp only [importMech]
        simp only [List.map_cons, List.map_map, List.cons.injEq]
        refine ⟨by simp [rodKey, Rod.new, hc0], ?_⟩
        apply List.map_congr_left
        intro r _
        rfl
      · obtain ⟨-, hgp, -⟩ := updateJoints_rodKey o _ _ m2'
          (by dsimp only [importMech]; rw [hstretch]; rfl) hupd
        rw [hgp]
        dsimp only [importMech]
        exact hrec
      · obtain ⟨-, -, hsm⟩ := updateJoints_rodKey o _ _ m2'
          (by dsimp only [importMech]; rw [hstretch]; rfl) hupd
        rw [hsm]
        dsimp only [importMech]

/-- Oracle for the round-trip instances: `cos _ = 1`, `sin _ = 0`,
`atan2 _ _ = 0`, `sqrt _ = 100`. -/
def oC9 : MathOracle := ⟨fun _ => 1, fun _ => 0, fun _ _ => 0, fun _ => 100⟩

def camC9 : Camera := ⟨⟨0, 0⟩, 1, 5, 1/10⟩

/-- A two-rod mechanism with stretching mode ON: crank of length 80 and a
follower of length 10 whose guide point sits at distance 100. -/
def mC9 : Mechanism :=
  { crankSpeed := 0
    crankAngle := 0
    isPlaying := true
    isStretchingMode := true
    hasTraceSystem := true
    anchor := ⟨0, 0⟩
    rods := [⟨0, 80, 0, false, false⟩, ⟨1, 10, 0, true, false⟩]
    guidePoints := [⟨1, ⟨80, 100⟩⟩]
    joints := [] }

/-- C9 counterexample: the round trip is NOT verbatim in general.  With
stretching mode on, `importState`'s trailing `updateJoints` applies the
stretching rule to the freshly restored rods: the follower of `mC9` is
exported with length 10 but comes back with length
140 = distance-to-guide-point 100 + sleeve extension 20 + joint radius 20,
so the imported mechanism differs from the exported one. -/
theorem export_import_roundtrip_counterexample :
    mC9.rods.map Rod.length = [80, 10] ∧
    Option.map (fun r => r.1.rods.map Rod.length)
      ((exportState "t" mC9 camC9 TraceSystem.init false).bind
        (fun st => importState oC9 5 st mC9 camC9 TraceSystem.init))
      = some [80, 140] := by
  refine ⟨rfl, ?_⟩
  norm_num [mC9, oC9, camC9, exportState, importState, importMech, importCam, importTs,
    TraceSystem.cfg, TraceSystem.init, TraceSystem.setTraceColor, TraceSystem.setTraceWidth,
    TraceSystem.setRodsWidth, Mechanism.updateJoints, followerPass, stretchLen, Vec.dist,
    Rod.new, Option.some_bind, List.find?]

/-- Same mechanism as `mC9` but with stretching mode OFF, satisfying the
hypotheses of the round-trip theorem. -/
def mW9 : Mechanism :=
  { crankSpeed := 0
    crankAngle := 0
    isPlaying := true
    isStretchingMode := false
    hasTraceSystem := true
    anchor := ⟨0, 0⟩
    rods := [⟨0, 80, 0, false, false⟩, ⟨1, 10, 0, true, false⟩]
    guidePoints := [⟨1, ⟨80, 100⟩⟩]
    joints := [] }

/-- C9 witness: the round-trip theorem applied to the concrete two-rod
mechanism `mW9` (canonical ids, stretching off), with every hypothesis
discharged by evaluation. -/
theorem export_import_roundtrip_witness :
    (mW9.rods.map Rod.id = List.range' 0 mW9.rods.length ∧
     mW9.guidePoints.map GuidePoint.id = List.range' 1 mW9.guidePoints.length ∧
     mW9.rods.length = mW9.guidePoints.length + 1 ∧
     mW9.isStretchingMode = false) ∧
    ∃ m2 c2 ts2 inv2,
      (exportState "t" mW9 camC9 TraceSystem.init false).bind
        (fun st => importState oC9 5 st mW9 camC9 TraceSystem.init)
        = some (m2, c2, ts2, inv2) ∧
      m2.rods.map rodKey = mW9.rods.map rodKey ∧
      m2.guidePoints = mW9.guidePoints ∧
      m2.isStretchingMode = mW9.isStretchingMode ∧
      c2.offset = camC9.offset ∧ c2.zoom = camC9.zoom ∧
      ts2.traceWidth = TraceSystem.init.traceWidth ∧
      ts2.rodsWidth = TraceSystem.init.rodsWidth ∧
      ts2.traceColor = TraceSystem.init.traceColor ∧ inv2 = false :=
  ⟨⟨by decide, by decide, by decide, rfl⟩,
    export_import_roundtrip oC9 5 "t" mW9 camC9 TraceSystem.init false
      (by decide) (by decide) (by decide) rfl⟩

end Linkage
